import Mathlib

/-!
Verification of the aemcli transfer-and-diff subsystem.

This file gives a shallow embedding, in Lean, of the pure computational core of
the `aemcli` repository (files `src/aemcli/commands/repo.py` and
`src/aemcli/commands/content_cleanup.py`) and proves or refutes the frozen
specification claims about it.

Strings are modelled as `List Char`; Python string operations (`replace`,
`strip`, `split(sep, 1)`, `in`, `startswith`, `endswith`, percent decoding)
are modelled by the explicit recursive functions below, which mirror the
leftmost, non-overlapping semantics of the CPython implementations.
Filesystem trees are modelled by the inductive type `FsTree`; effectful
command bodies are modelled as pure functions from their inputs (flag values,
discovered configuration, directory contents) to the data they would pass to
the next effect (error raised, bytes uploaded, subprocess arguments), so that
"no network call is attempted" is visible as "no transfer plan is produced".
-/

namespace Aemcli

/-- Python `pattern in s` on strings: `pat` occurs contiguously in `s`. -/
def isSub (pat : List Char) : List Char → Bool
  | [] => pat.isEmpty
  | c :: rest => pat.isPrefixOf (c :: rest) || isSub pat rest

/-- Fuel-indexed worker for `pyReplace`; the fuel dominates the length of the
remaining input so the recursion is structural and kernel-reducible. -/
def pyReplaceAux (pat rep : List Char) : Nat → List Char → List Char
  | _, [] => []
  | 0, s => s
  | Nat.succ n, c :: rest =>
      if pat ≠ [] ∧ pat.isPrefixOf (c :: rest) = true then
        rep ++ pyReplaceAux pat rep n (List.drop pat.length (c :: rest))
      else
        c :: pyReplaceAux pat rep n rest

/-- Python `s.replace(pat, rep)`: replace every leftmost, non-overlapping
occurrence of `pat` in `s` by `rep` (for nonempty `pat`). -/
def pyReplace (pat rep s : List Char) : List Char :=
  pyReplaceAux pat rep s.length s

/-- Python `s.split(sep, 1)` restricted to the success case: `some (a, b)`
when `s = a ++ sep :: b` with `sep ∉ a`, `none` when `sep` does not occur. -/
def splitOnce (sep : Char) : List Char → Option (List Char × List Char)
  | [] => none
  | c :: rest =>
      if c = sep then some ([], rest)
      else
        match splitOnce sep rest with
        | some p => some (c :: p.1, p.2)
        | none => none

/-- Python `s.strip(c)` for a single strip character: drop every leading and
trailing occurrence of `c`. -/
def pyStrip (c : Char) (s : List Char) : List Char :=
  ((s.dropWhile (· = c)).reverse.dropWhile (· = c)).reverse

/-- Python `s.strip()`: drop leading and trailing whitespace. -/
def pyStripWs (s : List Char) : List Char :=
  ((s.dropWhile Char.isWhitespace).reverse.dropWhile Char.isWhitespace).reverse

/-- Numeric value of a hexadecimal digit. -/
def hexVal (c : Char) : Nat :=
  if '0' ≤ c ∧ c ≤ '9' then c.toNat - '0'.toNat
  else if 'a' ≤ c ∧ c ≤ 'f' then c.toNat - 'a'.toNat + 10
  else if 'A' ≤ c ∧ c ≤ 'F' then c.toNat - 'A'.toNat + 10
  else 0

/-- Test for a hexadecimal digit. -/
def isHexDigit (c : Char) : Bool :=
  ('0' ≤ c ∧ c ≤ '9') ∨ ('a' ≤ c ∧ c ≤ 'f') ∨ ('A' ≤ c ∧ c ≤ 'F')

/-- Python `urllib.parse.unquote` at the byte level: each `%XX` hex pair is
decoded to the character with code `XX`; malformed escapes pass through
unchanged.  (Multi-byte UTF-8 recombination is not modelled; every input
appearing in the claims is ASCII, where this model agrees with CPython.) -/
def percentDecode : List Char → List Char
  | [] => []
  | '%' :: h1 :: h2 :: rest =>
      if isHexDigit h1 && isHexDigit h2 then
        Char.ofNat (16 * hexVal h1 + hexVal h2) :: percentDecode rest
      else '%' :: percentDecode (h1 :: h2 :: rest)
  | c :: rest => c :: percentDecode rest

/-- Embedding of `mangle_node_name` (content_cleanup.py, lines 33-49):
`if ":" in node_name: return "_" + node_name.replace(":", "_")`. -/
def mangle_node_name (node_name : List Char) : List Char :=
  if ':' ∈ node_name then '_' :: pyReplace [':'] ['_'] node_name else node_name

/-- Embedding of `unmangle_node_name` (content_cleanup.py, lines 52-68): when
the name starts with an underscore and another underscore follows, split the
tail at the first underscore and rejoin the two parts with a colon. -/
def unmangle_node_name (mangled_name : List Char) : List Char :=
  match mangled_name with
  | '_' :: rest =>
      match splitOnce '_' rest with
      | some p => p.1 ++ ':' :: p.2
      | none => mangled_name
  | _ => mangled_name

/-- Replacing a single character, with enough fuel, is a character map. -/
theorem pyReplaceAux_single (a b : Char) :
    ∀ (fuel : Nat) (s : List Char), s.length ≤ fuel →
      pyReplaceAux [a] [b] fuel s = s.map (fun c => if c = a then b else c) := by
  intro fuel
  induction fuel with
  | zero =>
    intro s hs
    cases s with
    | nil => rfl
    | cons c rest => simp at hs
  | succ n ih =>
    intro s hs
    cases s with
    | nil => rfl
    | cons c rest =>
      by_cases hc : c = a
      · subst hc
        have : pyReplaceAux [c] [b] (n + 1) (c :: rest) =
            b :: pyReplaceAux [c] [b] n rest := by
          simp [pyReplaceAux, List.isPrefixOf]
        rw [this, ih rest (by simpa using hs)]
        simp
      · have hpre : ([a].isPrefixOf (c :: rest)) = false := by
          simp [List.isPrefixOf]
          exact fun h => absurd h.symm hc
        have : pyReplaceAux [a] [b] (n + 1) (c :: rest) =
            c :: pyReplaceAux [a] [b] n rest := by
          simp [pyReplaceAux, hpre]
        rw [this, ih rest (by simpa using hs)]
        simp [hc]

/-- Replacement with a single-character pattern is a character map. -/
theorem pyReplace_single (a b : Char) (s : List Char) :
    pyReplace [a] [b] s = s.map (fun c => if c = a then b else c) :=
  pyReplaceAux_single a b s.length s le_rfl

/-- Mapping the colon-to-underscore substitution over a colon-free string
changes nothing. -/
theorem map_colon_eq_self {s : List Char} (h : ':' ∉ s) :
    s.map (fun c => if c = ':' then '_' else c) = s := by
  induction s with
  | nil => rfl
  | cons c rest ih =>
    simp only [List.mem_cons, not_or] at h
    simp [Ne.symm h.1, ih h.2]

/-- Splitting at the first separator after an underscore-free block finds
exactly that block. -/
theorem splitOnce_append {p : List Char} (s : List Char) (h : '_' ∉ p) :
    splitOnce '_' (p ++ '_' :: s) = some (p, s) := by
  induction p with
  | nil => simp [splitOnce]
  | cons c rest ih =>
    simp only [List.mem_cons, not_or] at h
    simp [splitOnce, Ne.symm h.1, ih h.2]

/-- C8 (counterexample): the claim predicts that mangling replaces only the
first colon, so `a:b:c` would become `_a_b:c`; the source replaces every
colon, producing `_a_b_c` instead. -/
theorem c8_counterexample :
    mangle_node_name ("a:b:c".toList) ≠ "_a_b:c".toList ∧
    mangle_node_name ("a:b:c".toList) = "_a_b_c".toList := by
  decide

/-- C8 (amended): for every name containing a colon, mangling replaces every
colon (not just the first) with an underscore and prefixes an underscore;
names without a colon pass through unchanged. -/
theorem c8_mangle_amended (name : List Char) :
    mangle_node_name name =
      if ':' ∈ name then
        '_' :: name.map (fun c => if c = ':' then '_' else c)
      else name := by
  by_cases h : ':' ∈ name <;> simp [mangle_node_name, h, pyReplace_single]

/-- C2 (counterexample): `a_b:c` contains exactly one colon, yet the
round-trip returns `a:b_c`, because unmangling splits at the first
underscore of the mangled tail, which here comes from a pre-existing
underscore rather than from the colon. -/
theorem c2_counterexample :
    (("a_b:c".toList).count ':' = 1) ∧
    unmangle_node_name (mangle_node_name ("a_b:c".toList)) ≠ "a_b:c".toList := by
  decide

/-- C2 (amended): for every name with exactly one colon whose part before the
colon contains no underscore, unmangling the mangled form gives back the
original name. -/
theorem c2_roundtrip_amended (p s : List Char)
    (hp1 : ':' ∉ p) (hp2 : '_' ∉ p) (hs : ':' ∉ s) :
    unmangle_node_name (mangle_node_name (p ++ ':' :: s)) = p ++ ':' :: s := by
  have hmem : ':' ∈ p ++ ':' :: s := List.mem_append_right _ (List.mem_cons_self _ _)
  have h1 : mangle_node_name (p ++ ':' :: s) = '_' :: (p ++ '_' :: s) := by
    simp only [mangle_node_name, if_pos hmem, pyReplace_single, List.map_append,
      List.map_cons]
    rw [map_colon_eq_self hp1, map_colon_eq_self hs]
    simp
  rw [h1]
  simp [unmangle_node_name, splitOnce_append s hp2]

/-- C2 (witness): the round-trip theorem applied at `jcr:content`. -/
theorem c2_roundtrip_witness :
    unmangle_node_name (mangle_node_name ("jcr".toList ++ ':' :: "content".toList)) =
      "jcr".toList ++ ':' :: "content".toList :=
  c2_roundtrip_amended ("jcr".toList) ("content".toList)
    (by decide) (by decide) (by decide)

/-- The namespace token table of `PackageBuilder.filesystem_to_jcr`
(repo.py, lines 243-254), in source order. -/
def replacements : List (List Char × List Char) :=
  [("_jcr_".toList, "jcr:".toList),
   ("_rep_".toList, "rep:".toList),
   ("_oak_".toList, "oak:".toList),
   ("_sling_".toList, "sling:".toList),
   ("_granite_".toList, "granite:".toList),
   ("_cq_".toList, "cq:".toList),
   ("_dam_".toList, "dam:".toList),
   ("_exif_".toList, "exif:".toList),
   ("_social_".toList, "social:".toList)]

/-- Embedding of `PackageBuilder.filesystem_to_jcr` (repo.py, lines 232-262):
strip one trailing `/.content.xml`, `.content.xml` or `.xml` suffix (first
match wins), rewrite every namespace token, then percent-decode. -/
def filesystem_to_jcr (path : List Char) : List Char :=
  let path1 :=
    if ("/.content.xml".toList).isSuffixOf path then path.take (path.length - 13)
    else if (".content.xml".toList).isSuffixOf path then path.take (path.length - 12)
    else if (".xml".toList).isSuffixOf path then path.take (path.length - 4)
    else path
  let path2 := replacements.foldl (fun p r => pyReplace r.1 r.2 p) path1
  percentDecode path2

/-- Replacing a pattern that does not occur in the string changes nothing. -/
theorem pyReplaceAux_not_sub (pat rep : List Char) :
    ∀ (fuel : Nat) (s : List Char), isSub pat s = false →
      pyReplaceAux pat rep fuel s = s := by
  intro fuel
  induction fuel with
  | zero => intro s _; cases s <;> rfl
  | succ n ih =>
    intro s h
    cases s with
    | nil => rfl
    | cons c rest =>
      simp only [isSub, Bool.or_eq_false_iff] at h
      have hif : ¬ (pat ≠ [] ∧ pat.isPrefixOf (c :: rest) = true) := by
        rintro ⟨-, hp⟩
        rw [h.1] at hp
        exact Bool.false_ne_true hp
      simp only [pyReplaceAux, if_neg hif]
      rw [ih rest h.2]

/-- Replacement fixes strings in which the pattern does not occur. -/
theorem pyReplace_not_sub {pat : List Char} (rep : List Char) {s : List Char}
    (h : isSub pat s = false) : pyReplace pat rep s = s :=
  pyReplaceAux_not_sub pat rep s.length s h

/-- The namespace-rewrite fold fixes strings containing no table token. -/
theorem foldl_replacements_fixed (y : List Char)
    (h : ∀ r ∈ replacements, isSub r.1 y = false) :
    replacements.foldl (fun p r => pyReplace r.1 r.2 p) y = y := by
  have : ∀ (L : List (List Char × List Char)), (∀ r ∈ L, isSub r.1 y = false) →
      L.foldl (fun p r => pyReplace r.1 r.2 p) y = y := by
    intro L
    induction L with
    | nil => intro _; rfl
    | cons r L ih =>
      intro hL
      have h1 : pyReplace r.1 r.2 y = y :=
        pyReplace_not_sub r.2 (hL r (List.mem_cons_self _ _))
      simp only [List.foldl_cons, h1]
      exact ih (fun q hq => hL q (List.mem_cons_of_mem _ hq))
  exact this replacements h

/-- Percent-decoding fixes strings containing no percent sign. -/
theorem percentDecode_fixed : ∀ (s : List Char), '%' ∉ s → percentDecode s = s := by
  intro s
  induction s using percentDecode.induct with
  | case1 => intro _; rfl
  | case2 h1 h2 rest _ ih =>
    intro h
    exact absurd (List.mem_cons_self _ _) h
  | case3 h1 h2 rest _ ih =>
    intro h
    exact absurd (List.mem_cons_self _ _) h
  | case4 c rest hne ih =>
    intro h
    simp only [List.mem_cons, not_or] at h
    have hc : c ≠ '%' := Ne.symm h.1
    have hstep : percentDecode (c :: rest) = c :: percentDecode rest := by
      rw [percentDecode.eq_def]
      split
      · rename_i heq
        exact absurd heq (by simp)
      · rename_i heq
        exact absurd (List.cons.inj heq).1 hc
      · rename_i heq
        obtain ⟨h1, h2⟩ := List.cons.inj heq
        rw [h1, h2]
    rw [hstep, ih h.2]

/-- C9 (counterexample): `filesystemToRepositoryPath` is not idempotent on
already-converted inputs: the output of `.xml.xml` is `.xml`, and applying
the function to that output strips again. -/
theorem c9_counterexample :
    filesystem_to_jcr (filesystem_to_jcr (".xml.xml".toList)) ≠
      filesystem_to_jcr (".xml.xml".toList) := by
  decide

/-- C9 (amended): `filesystemToRepositoryPath` is a deterministic function
mapping the three documented examples as stated, and it fixes (hence is
idempotent on) every string that does not end in `.xml`, contains no
namespace token from the table, and contains no percent sign; idempotence on
arbitrary already-converted inputs fails (see the counterexample). -/
theorem c9_amended :
    (filesystem_to_jcr ("_jcr_content".toList) = "jcr:content".toList ∧
     filesystem_to_jcr ("/apps/_cq_dialog".toList) = "/apps/cq:dialog".toList ∧
     filesystem_to_jcr ("/apps/project/.content.xml".toList) = "/apps/project".toList) ∧
    ∀ y : List Char, (".xml".toList).isSuffixOf y = false →
      (∀ r ∈ replacements, isSub r.1 y = false) → '%' ∉ y →
      filesystem_to_jcr y = y := by
  constructor
  · exact ⟨by decide, by decide, by decide⟩
  · intro y h1 h2 h3
    have key : ∀ t : List Char, (".xml".toList) <:+ t → t.isSuffixOf y = false := by
      intro t ht
      cases hv : t.isSuffixOf y
      · rfl
      · exfalso
        have hx : (".xml".toList).isSuffixOf y = true := by
          rw [List.isSuffixOf_iff_suffix] at hv ⊢
          exact ht.trans hv
        rw [h1] at hx
        exact Bool.false_ne_true hx
    simp only [filesystem_to_jcr,
      key ("/.content.xml".toList) (by decide),
      key (".content.xml".toList) (by decide), h1,
      Bool.false_eq_true, if_false,
      foldl_replacements_fixed y h2, percentDecode_fixed y h3]

/-- C9 (witness): the fixed-point part of the amended theorem applied at the
already-converted path `/apps/project`. -/
theorem c9_amended_witness :
    filesystem_to_jcr ("/apps/project".toList) = "/apps/project".toList :=
  c9_amended.2 ("/apps/project".toList) (by decide) (by decide) (by decide)

/-- Package name computed by `put` (repo.py, lines 667-668):
`filter_path.replace("/", "-").replace(":", "").strip("-")`, then prefixed
with `repo`, with `repo-root` as the fallback for an empty result. -/
def put_package_name (filter_path : List Char) : List Char :=
  let n := pyStrip '-' (pyReplace [':'] [] (pyReplace ['/'] ['-'] filter_path))
  if n = [] then "repo-root".toList else "repo".toList ++ n

/-- Package name computed by `get` (repo.py, lines 784-785). -/
def get_package_name (filter_path : List Char) : List Char :=
  let n := pyStrip '-' (pyReplace [':'] [] (pyReplace ['/'] ['-'] filter_path))
  if n = [] then "repo-root".toList else "repo".toList ++ n

/-- Package name computed by `status` (repo.py, lines 952-953). -/
def status_package_name (filter_path : List Char) : List Char :=
  let n := pyStrip '-' (pyReplace [':'] [] (pyReplace ['/'] ['-'] filter_path))
  if n = [] then "repo-root".toList else "repo".toList ++ n

/-- Package name computed by `_diff_command`, which backs `diff`, `localdiff`
and `serverdiff` (repo.py, lines 1117-1118). -/
def diff_package_name (filter_path : List Char) : List Char :=
  let n := pyStrip '-' (pyReplace [':'] [] (pyReplace ['/'] ['-'] filter_path))
  if n = [] then "repo-root".toList else "repo".toList ++ n

/-- C10 (confirmed): put, get, status and diff derive the server-side package
name by one deterministic rule; the name is never empty; and the mapping is
not injective, with `/a/b` and `/a-b` colliding on the same name. -/
theorem c10_package_name :
    (∀ fp : List Char, put_package_name fp = get_package_name fp ∧
       put_package_name fp = status_package_name fp ∧
       put_package_name fp = diff_package_name fp) ∧
    (∀ fp : List Char, put_package_name fp ≠ []) ∧
    (put_package_name ("/a/b".toList) = put_package_name ("/a-b".toList) ∧
      ("/a/b".toList) ≠ ("/a-b".toList)) := by
  refine ⟨fun fp => ⟨rfl, rfl, rfl⟩, fun fp => ?_, by decide, by decide⟩
  simp only [put_package_name]
  split
  · decide
  · simp

/-- The configuration record of `RepoConfig` (repo.py, lines 69-78). -/
structure RepoConfigS where
  server : List Char
  credentials : List Char
  force : Bool
  quiet : Bool
  packmgr : List Char
  package_group : List Char
deriving DecidableEq

/-- Defaults set by `RepoConfig.__init__` (repo.py, lines 72-78). -/
def defaultRepoConfig : RepoConfigS :=
  { server := "http://localhost:4502".toList
    credentials := "admin:admin".toList
    force := false
    quiet := false
    packmgr := "/crx/packmgr/service/.json".toList
    package_group := "tmp/repo".toList }

/-- One line of `RepoConfig._parse_config_file` (repo.py, lines 116-132):
strip the line, ignore blanks and `#` comments, split at the first `=`, strip
key and value, and recognise the keys `server` and `credentials`. -/
def apply_config_line (c : RepoConfigS) (line : List Char) : RepoConfigS :=
  let line := pyStripWs line
  if line ≠ [] ∧ ¬ (("#".toList).isPrefixOf line = true) then
    match splitOnce '=' line with
    | some p =>
        let key := pyStripWs p.1
        let value := pyStripWs p.2
        if key = "server".toList then { c with server := value }
        else if key = "credentials".toList then { c with credentials := value }
        else c
    | none => c
  else c

/-- Embedding of `RepoConfig._parse_config_file`: fold the line handler over
the discovered file content. -/
def parse_config_file (lines : List (List Char)) (c : RepoConfigS) : RepoConfigS :=
  lines.foldl apply_config_line c

/-- Embedding of `RepoConfig.load_config` (repo.py, lines 80-86): the walk-up
discovery is abstracted as `Option` of the discovered file content; when a
`.repo` file is found, its settings are applied over the current record. -/
def load_config (c : RepoConfigS) (found : Option (List (List Char))) : RepoConfigS :=
  match found with
  | some lines => parse_config_file lines c
  | none => c

/-- Python `s.split(pat)[0]` together with the remainder, for a
multi-character separator: `some (before, after)` at the first occurrence of
`pat`, `none` when `pat` does not occur. -/
def splitAtSub (pat : List Char) : List Char → Option (List Char × List Char)
  | [] => none
  | c :: rest =>
      if pat ≠ [] ∧ pat.isPrefixOf (c :: rest) = true then
        some ([], List.drop pat.length (c :: rest))
      else
        match splitAtSub pat rest with
        | some p => some (c :: p.1, p.2)
        | none => none

/-- Embedding of `RepoConfig.load_vlt_config` (repo.py, lines 88-104): given
the `repository.url` text found inside a `.vlt` archive (abstracted as
`Option`), set the server to the part before `/crx/server` when that marker
occurs.  NOTE: the source defines this method but no command ever calls it;
it is included here because claim C1 asserts its effect takes part in the
effective-configuration precedence. -/
def load_vlt_config (c : RepoConfigS) (repository_url : Option (List Char)) :
    RepoConfigS × Bool :=
  match repository_url with
  | some url =>
      match splitAtSub ("/crx/server".toList) (pyStripWs url) with
      | some p => ({ c with server := p.1 }, true)
      | none => (c, false)
  | none => (c, false)

/-- Effective configuration built by `put` (repo.py, lines 637-647), in the
source order: defaults, then the force/quiet flags, then the `-s`/`-u` flags
when truthy, and finally `load_config` — so a discovered `.repo` file is
applied after (and over) the explicit flags, and `load_vlt_config` is never
consulted. -/
def put_effective_config (force quiet : Bool)
    (server credentials : Option (List Char))
    (repoFile : Option (List (List Char))) : RepoConfigS :=
  let config := defaultRepoConfig
  let config := { config with force := force, quiet := quiet }
  let config :=
    match server with
    | some s => if s = [] then config else { config with server := s }
    | none => config
  let config :=
    match credentials with
    | some u => if u = [] then config else { config with credentials := u }
    | none => config
  load_config config repoFile

/-- Effective configuration built by `get` (repo.py, lines 754-764); the
body is line-for-line the same as `put`. -/
def get_effective_config (force quiet : Bool)
    (server credentials : Option (List Char))
    (repoFile : Option (List (List Char))) : RepoConfigS :=
  let config := defaultRepoConfig
  let config := { config with force := force, quiet := quiet }
  let config :=
    match server with
    | some s => if s = [] then config else { config with server := s }
    | none => config
  let config :=
    match credentials with
    | some u => if u = [] then config else { config with credentials := u }
    | none => config
  load_config config repoFile

/-- C1 (code behaviour at the failing input): when an explicit `-s` flag and
a discovered `.repo` file both set the server, put and get use the config
file value, not the flag value — `load_config` runs after the flag
assignments and overwrites them, contradicting the claimed flags-highest
precedence (and `load_vlt_config` is never invoked at all). -/
theorem c1_flag_overridden_by_file :
    (put_effective_config false false (some ("http://flagserver:1111".toList)) none
        (some ["server=http://fileserver:2222".toList])).server =
      "http://fileserver:2222".toList ∧
    (get_effective_config false false (some ("http://flagserver:1111".toList)) none
        (some ["server=http://fileserver:2222".toList])).server =
      "http://fileserver:2222".toList ∧
    "http://fileserver:2222".toList ≠ "http://flagserver:1111".toList := by
  decide

/-- Error taxonomy of the command layer: `usageError` models
`click.UsageError`, `clickException` models `click.ClickException`. -/
inductive CmdError where
  | usageError (msg : List Char)
  | clickException (msg : List Char)
deriving DecidableEq

/-- Root-refusal message used by put, get and checkout (repo.py, lines
601-604, 652-655, 769-772). -/
def rootRefusalLong : List Char :=
  "Refusing to work on repository root (would be too slow or overwrite everything)".toList

/-- Root-refusal message used by status and the diff commands (repo.py,
lines 939-942, 1101-1104). -/
def rootRefusalShort : List Char :=
  "Refusing to work on repository root (would be too slow)".toList

/-- Message of the two validation failures of `validate_jcr_root`. -/
def notInsideMsg : List Char :=
  "Not inside a vault checkout with a jcr_root base directory".toList

/-- Test whether a command result is a raised UsageError (as opposed to a
success or any other error kind). -/
def resultIsUsageError {α : Type} : Except CmdError α → Bool
  | .error (.usageError _) => true
  | _ => false

/-- Locate the first path segment equal to `jcr_root` (the index scan of
repo.py, lines 410-415): `some (before, after)` splits the segment list
around that segment. -/
def splitAtJcrRoot : List (List Char) → Option (List (List Char) × List (List Char))
  | [] => none
  | p :: ps =>
      if p = "jcr_root".toList then some ([], ps)
      else
        match splitAtJcrRoot ps with
        | some q => some (p :: q.1, q.2)
        | none => none

/-- Filter path below `jcr_root` (repo.py, lines 423-427): `/` followed by
the slash-joined remaining segments — which is `/` itself when no segment
remains. -/
def filter_path_of (after : List (List Char)) : List Char :=
  '/' :: List.intercalate ['/'] after

/-- Embedding of `validate_jcr_root` (repo.py, lines 400-429) over the
resolved absolute path represented as its list of segments: first the
textual `"jcr_root" in str(path)` membership guard (the path string is the
slash-joined segments), then the exact-segment scan; both failure branches
raise the same UsageError. -/
def validate_jcr_root (parts : List (List Char)) :
    Except CmdError (List (List Char) × List Char) :=
  if isSub ("jcr_root".toList) (List.intercalate ['/'] parts) = false then
    .error (.usageError notInsideMsg)
  else
    match splitAtJcrRoot parts with
    | some q => .ok (q.1 ++ ["jcr_root".toList], filter_path_of q.2)
    | none => .error (.usageError notInsideMsg)

/-- Data a transfer command passes to its first network operation.
Producing a plan is the only way a command body proceeds past validation,
so an `.error` result means no network call is attempted. -/
structure TransferPlan where
  config : RepoConfigS
  filter_path : List Char
deriving DecidableEq

/-- Validation prefix of `put` (repo.py, lines 635-655): build the effective
configuration, resolve `(jcr_root, filter_path)`, and reject the repository
root with a UsageError before any package is built or uploaded. -/
def put_precheck (force quiet : Bool) (server credentials : Option (List Char))
    (repoFile : Option (List (List Char))) (parts : List (List Char)) :
    Except CmdError TransferPlan :=
  let config := put_effective_config force quiet server credentials repoFile
  match validate_jcr_root parts with
  | .error e => .error e
  | .ok q =>
      if q.2 = "/".toList then .error (.usageError rootRefusalLong)
      else .ok { config := config, filter_path := q.2 }

/-- Validation prefix of `get` (repo.py, lines 752-772); line-for-line the
same shape as `put`. -/
def get_precheck (force quiet : Bool) (server credentials : Option (List Char))
    (repoFile : Option (List (List Char))) (parts : List (List Char)) :
    Except CmdError TransferPlan :=
  let config := get_effective_config force quiet server credentials repoFile
  match validate_jcr_root parts with
  | .error e => .error e
  | .ok q =>
      if q.2 = "/".toList then .error (.usageError rootRefusalLong)
      else .ok { config := config, filter_path := q.2 }

/-- Effective configuration built by `status` (repo.py, lines 926-934) and
by `_diff_command` (lines 1088-1096): as for put/get but these commands have
no force/quiet options. -/
def status_effective_config (server credentials : Option (List Char))
    (repoFile : Option (List (List Char))) : RepoConfigS :=
  let config := defaultRepoConfig
  let config :=
    match server with
    | some s => if s = [] then config else { config with server := s }
    | none => config
  let config :=
    match credentials with
    | some u => if u = [] then config else { config with credentials := u }
    | none => config
  load_config config repoFile

/-- Validation prefix of `status` (repo.py, lines 916-942). -/
def status_precheck (server credentials : Option (List Char))
    (repoFile : Option (List (List Char))) (parts : List (List Char)) :
    Except CmdError TransferPlan :=
  let config := status_effective_config server credentials repoFile
  match validate_jcr_root parts with
  | .error e => .error e
  | .ok q =>
      if q.2 = "/".toList then .error (.usageError rootRefusalShort)
      else .ok { config := config, filter_path := q.2 }

/-- Validation prefix of `_diff_command` (repo.py, lines 1086-1104), which
backs `diff`, `localdiff` and `serverdiff`; its `inverse` flag plays no role
in validation. -/
def diff_precheck (server credentials : Option (List Char))
    (repoFile : Option (List (List Char))) (parts : List (List Char)) :
    Except CmdError TransferPlan :=
  let config := status_effective_config server credentials repoFile
  match validate_jcr_root parts with
  | .error e => .error e
  | .ok q =>
      if q.2 = "/".toList then .error (.usageError rootRefusalShort)
      else .ok { config := config, filter_path := q.2 }

/-- Validation prefix of `checkout` (repo.py, lines 574-604): build the
configuration, then reject JCR paths not starting with `/` and the root
path itself; for checkout the argument is the filter path. -/
def checkout_precheck (force quiet : Bool)
    (server credentials : Option (List Char))
    (repoFile : Option (List (List Char))) (jcr_path : List Char) :
    Except CmdError (RepoConfigS × List Char) :=
  let config := put_effective_config force quiet server credentials repoFile
  if ¬ (("/".toList).isPrefixOf jcr_path = true) then
    .error (.usageError ("JCR path must start with /".toList))
  else if jcr_path = "/".toList then
    .error (.usageError rootRefusalLong)
  else .ok (config, jcr_path)

/-- C3 (confirmed): every one of the five user operations, when its resolved
filter path is the repository root `/`, rejects the invocation with a raised
UsageError — the same error kind for all five — and produces no transfer
plan, so no network call is attempted. -/
theorem c3_root_rejected (force quiet : Bool)
    (server credentials : Option (List Char)) (repoFile : Option (List (List Char)))
    (parts : List (List Char)) (r : List (List Char))
    (h : validate_jcr_root parts = .ok (r, "/".toList)) :
    resultIsUsageError (put_precheck force quiet server credentials repoFile parts) = true ∧
    resultIsUsageError (get_precheck force quiet server credentials repoFile parts) = true ∧
    resultIsUsageError (status_precheck server credentials repoFile parts) = true ∧
    resultIsUsageError (diff_precheck server credentials repoFile parts) = true ∧
    resultIsUsageError
      (checkout_precheck force quiet server credentials repoFile ("/".toList)) = true := by
  refine ⟨?_, ?_, ?_, ?_, ?_⟩
  · simp [put_precheck, h, resultIsUsageError]
  · simp [get_precheck, h, resultIsUsageError]
  · simp [status_precheck, h, resultIsUsageError]
  · simp [diff_precheck, h, resultIsUsageError]
  · simp [checkout_precheck, resultIsUsageError, List.isPrefixOf]

/-- C3 (witness): the rejection theorem applied to a concrete checkout tree
whose working directory is the `jcr_root` directory itself. -/
theorem c3_root_rejected_witness :
    resultIsUsageError (put_precheck false false none none none ["jcr_root".toList]) = true ∧
    resultIsUsageError (get_precheck false false none none none ["jcr_root".toList]) = true ∧
    resultIsUsageError (status_precheck none none none ["jcr_root".toList]) = true ∧
    resultIsUsageError (diff_precheck none none none ["jcr_root".toList]) = true ∧
    resultIsUsageError (checkout_precheck false false none none none ("/".toList)) = true :=
  c3_root_rejected false false none none none ["jcr_root".toList] ["jcr_root".toList] rfl

/-- Effects of the upload phase of `put` that are observable by the user
and the server (repo.py, lines 711-739): the confirmation prompt, the abort
message, and the three package-manager calls. -/
inductive PutEffect where
  | prompt
  | echoAborted
  | upload
  | install
  | delete
deriving DecidableEq

/-- Embedding of the upload phase of `put` (repo.py, lines 711-739): the
confirmation prompt runs only under `not config.force and not config.quiet`;
a negative answer prints `Aborted.` and returns without error before any
upload; otherwise the package is uploaded, installed, and the server-side
copy deleted.  `answer` is the user's reply to the prompt (irrelevant when
no prompt happens). -/
def put_upload_phase (force quiet : Bool) (answer : Bool) : List PutEffect :=
  if !force && !quiet then
    if !answer then [.prompt, .echoAborted]
    else [.prompt, .upload, .install, .delete]
  else [.upload, .install, .delete]

/-- C4 (counterexample): a put invocation with the force flag unset but the
quiet flag set is never prompted — and the upload proceeds — refuting the
claim that every non-forced invocation is prompted before upload. -/
theorem c4_counterexample :
    PutEffect.prompt ∉ put_upload_phase false true false ∧
    PutEffect.upload ∈ put_upload_phase false true false := by
  decide

/-- C4 (amended): for every put invocation in which neither the force flag
nor the quiet flag is set, the user is prompted before upload and a declined
confirmation aborts without error before any upload, install or delete is
attempted; when the quiet flag is set (without force) the upload proceeds
with no prompt at all. -/
theorem c4_put_confirmation_amended (answer : Bool) :
    put_upload_phase false false answer =
      (if answer then [PutEffect.prompt, .upload, .install, .delete]
       else [PutEffect.prompt, .echoAborted]) ∧
    put_upload_phase false true answer = [PutEffect.upload, .install, .delete] := by
  cases answer <;> exact ⟨rfl, rfl⟩

/-- Colours used by the diff rendering. -/
inductive DiffColor where
  | white
  | red
  | green
  | cyan
  | plain
deriving DecidableEq

/-- Colour assignment of `show_diff` (repo.py, lines 523-535), applied line
by line: file headers white, removals red, additions green, hunk headers
cyan, everything else passed through unchanged. -/
def colorize_line (l : List Char) : DiffColor :=
  if ("---".toList).isPrefixOf l = true ∨ ("+++".toList).isPrefixOf l = true then .white
  else if ("-".toList).isPrefixOf l = true then .red
  else if ("+".toList).isPrefixOf l = true then .green
  else if ("@@".toList).isPrefixOf l = true then .cyan
  else .plain

/-- Subprocess arguments built by `show_diff` (repo.py, lines 512-518): the
external diff always runs with the REMOTE snapshot on the left and the LOCAL
snapshot on the right; the function has no direction parameter. -/
def show_diff_args (left_dir right_dir filter_path : List Char) :
    List (List Char) :=
  ["/usr/bin/diff".toList, "-rduNw".toList,
   left_dir ++ '/' :: ("REMOTE".toList ++ filter_path),
   left_dir ++ '/' :: ("LOCAL".toList ++ filter_path)]

/-- User-visible presentation of `_diff_command` once the snapshots are
materialized (repo.py, lines 1106-1109 and 1177-1178): the echoed header,
the subprocess arguments of `show_diff diff_base diff_base filter_path`,
and the colourized rendering of the tool output.  The `inverse` flag reaches
only the header text; `show_diff` is invoked without it. -/
def diff_command_view (inverse : Bool) (diff_base filter_path server : List Char)
    (toolOutput : List (List Char)) :
    List Char × List (List Char) × List (DiffColor × List Char) :=
  ("Showing differences (".toList ++
      ((if inverse then "server -> local".toList else "local -> server".toList) ++
        (") for ".toList ++ filter_path ++ (" against ".toList ++ server))),
   show_diff_args diff_base diff_base filter_path,
   toolOutput.map fun l => (colorize_line l, l))

/-- Presentation of `localdiff` (and `diff`, which delegates to it):
it invokes `_diff_command`
with `inverse=False` (repo.py, lines 1049, 1066). -/
def localdiff_view (diff_base filter_path server : List Char)
    (toolOutput : List (List Char)) :
    List Char × List (List Char) × List (DiffColor × List Char) :=
  diff_command_view false diff_base filter_path server toolOutput

/-- Presentation of `serverdiff`: it invokes `_diff_command` with
`inverse=True` (repo.py, line
1083). -/
def serverdiff_view (diff_base filter_path server : List Char)
    (toolOutput : List (List Char)) :
    List Char × List (List Char) × List (DiffColor × List Char) :=
  diff_command_view true diff_base filter_path server toolOutput

/-- C7 (code behaviour): serverdiff and localdiff hand the external diff the
identical argument order and render the identical colourized output — the
`inverse` flag changes only the echoed header — so the presentation
direction is never inverted, contrary to the claim, to the serverdiff
docstring, and to the source comment `inverse changes the direction`. -/
theorem c7_serverdiff_not_inverted (diff_base filter_path server : List Char)
    (toolOutput : List (List Char)) :
    (serverdiff_view diff_base filter_path server toolOutput).2 =
      (localdiff_view diff_base filter_path server toolOutput).2 ∧
    (serverdiff_view diff_base filter_path server toolOutput).1 ≠
      (localdiff_view diff_base filter_path server toolOutput).1 := by
  constructor
  · rfl
  · intro h
    have h1 := List.append_cancel_left h
    have h2 := List.append_cancel_right h1
    exact absurd h2 (by decide)

/-- A filesystem subtree: named files and named directories with children.
File contents play no part in the archive-entry and copy-selection claims
and are not modelled. -/
inductive FsTree where
  | file (name : List Char)
  | dir (name : List Char) (children : List FsTree)

/-- Relative archive/destination path of an entry named `name` below the
relative prefix `pre` (empty prefix at the walk root). -/
def entryName (pre name : List Char) : List Char :=
  if pre = [] then name else pre ++ '/' :: name

/-- Embedding of the walk of `PackageBuilder.create_zip` (repo.py, lines
376-397) over the staging tree: every directory contributes an explicit
entry with a trailing slash (so empty directories survive), every file
except one named `pkg.zip` contributes a file entry.  Entries of a subtree
are listed next to their directory rather than in os.walk order (which
first lists a whole directory level); the set and number of entries, which
the claims concern, are unaffected by that regrouping. -/
def create_zip_walk (pre : List Char) : List FsTree → List (List Char)
  | [] => []
  | FsTree.file n :: ts =>
      (if n = "pkg.zip".toList then [] else [entryName pre n]) ++
        create_zip_walk pre ts
  | FsTree.dir n cs :: ts =>
      (entryName pre n ++ ['/']) ::
        (create_zip_walk (entryName pre n) cs ++ create_zip_walk pre ts)

/-- Entry list of the archive produced from a staging tree (`create_zip`
starts its walk at the temporary package directory). -/
def create_zip (ts : List FsTree) : List (List Char) :=
  create_zip_walk [] ts

/-- Number of directories in a forest, at every depth. -/
def cDirs : List FsTree → Nat
  | [] => 0
  | FsTree.file _ :: ts => cDirs ts
  | FsTree.dir _ cs :: ts => 1 + cDirs cs + cDirs ts

/-- Number of files in a forest, at every depth, whose name is not
`pkg.zip`. -/
def cKept : List FsTree → Nat
  | [] => 0
  | FsTree.file n :: ts => (if n = "pkg.zip".toList then 0 else 1) + cKept ts
  | FsTree.dir _ cs :: ts => cKept cs + cKept ts

/-- C5 (counterexample): a staging tree holding a user file named `pkg.zip`
inside `jcr_root` — not the archive's own top-level output file — still
loses that file: the claim that only the archive's own output file is
excluded fails. -/
theorem c5_counterexample :
    create_zip [FsTree.dir ("jcr_root".toList) [FsTree.file ("pkg.zip".toList)]] =
      ["jcr_root/".toList] ∧
    ("jcr_root/pkg.zip".toList) ∉
      create_zip [FsTree.dir ("jcr_root".toList) [FsTree.file ("pkg.zip".toList)]] := by
  constructor
  · simp [create_zip, create_zip_walk, entryName]
  · simp [create_zip, create_zip_walk, entryName]

/-- The walk contributes one entry per directory and one entry per kept
file, for every prefix. -/
theorem create_zip_walk_length (pre : List Char) (ts : List FsTree) :
    (create_zip_walk pre ts).length = cDirs ts + cKept ts := by
  induction pre, ts using create_zip_walk.induct with
  | case1 pre => simp [create_zip_walk, cDirs, cKept]
  | case2 pre n ts ih =>
    simp only [create_zip_walk, cDirs, cKept, List.length_append]
    split <;> simp [ih] <;> omega
  | case3 pre n cs ts ih1 ih2 =>
    simp only [create_zip_walk, cDirs, cKept, List.length_cons, List.length_append,
      ih1, ih2]
    omega

/-- C5 (amended): the archive produced from a staging tree contains exactly
one explicit directory entry per directory (empty directories included) plus
one entry per file — except that every file named `pkg.zip`, at any depth,
is excluded, not only the archive's own output file. -/
theorem c5_create_zip_amended (ts : List FsTree) :
    (create_zip ts).length = cDirs ts + cKept ts :=
  create_zip_walk_length [] ts

/-- Path string of a directory entry below its parent directory path (the
`root_path / d` and `root_path / file` joins in repo.py, lines 363, 367). -/
def childPath (parent name : List Char) : List Char :=
  parent ++ '/' :: name

/-- Embedding of the `should_exclude` helper of `PackageBuilder.copy_content`
(repo.py, lines 340-344): an entry is excluded when some pattern occurs as a
substring of the full path string `str(path)`, or equals the entry's base
name. -/
def should_exclude (fullPath name : List Char) (excludes : List (List Char)) : Bool :=
  excludes.any fun pattern => isSub pattern fullPath || name == pattern

/-- Embedding of the directory branch of `PackageBuilder.copy_content`
(repo.py, lines 356-374), returning the destination-relative paths of the
files copied.  `full` is the path string of the directory being walked
(initially `str(source)`), `rel` its destination-relative counterpart.
Directory entries failing `should_exclude` are pruned before descent
(`dirs[:] = ...`), files are filtered by the same test.  As with the archive
walk, a subtree's copies are grouped next to their directory; the copied set
is unaffected. -/
def copy_content_walk (full rel : List Char) (excludes : List (List Char)) :
    List FsTree → List (List Char)
  | [] => []
  | FsTree.file n :: ts =>
      (if should_exclude (childPath full n) n excludes then []
       else [entryName rel n]) ++
        copy_content_walk full rel excludes ts
  | FsTree.dir n cs :: ts =>
      (if should_exclude (childPath full n) n excludes then []
       else copy_content_walk (childPath full n) (entryName rel n) excludes cs) ++
        copy_content_walk full rel excludes ts

/-- Declarative characterization of the copied files: a file is copied
exactly when its own full path passes `should_exclude` and every ancestor
directory on the way down passed it too. -/
inductive CopiedFile (ex : List (List Char)) :
    List Char → List Char → List FsTree → List Char → Prop where
  | here (full rel : List Char) (ts : List FsTree) (n : List Char)
      (hmem : FsTree.file n ∈ ts)
      (hex : should_exclude (childPath full n) n ex = false) :
      CopiedFile ex full rel ts (entryName rel n)
  | there (full rel : List Char) (ts : List FsTree) (n : List Char)
      (cs : List FsTree) (p : List Char)
      (hmem : FsTree.dir n cs ∈ ts)
      (hex : should_exclude (childPath full n) n ex = false)
      (hsub : CopiedFile ex (childPath full n) (entryName rel n) cs p) :
      CopiedFile ex full rel ts p

/-- Weakening: a copy found in a forest is found in any extension of it. -/
theorem CopiedFile.cons {ex : List (List Char)} {full rel p : List Char}
    {t : FsTree} {ts : List FsTree}
    (h : CopiedFile ex full rel ts p) : CopiedFile ex full rel (t :: ts) p := by
  cases h with
  | here full rel ts n hmem hex =>
    exact .here full rel (t :: ts) n (List.mem_cons_of_mem _ hmem) hex
  | there full rel ts n cs p hmem hex hsub =>
    exact .there full rel (t :: ts) n cs p (List.mem_cons_of_mem _ hmem) hex hsub

/-- A non-excluded file in a forest appears among the walk's copies. -/
theorem mem_walk_of_file {ex : List (List Char)} {full rel n : List Char}
    {ts : List FsTree} (hmem : FsTree.file n ∈ ts)
    (hex : should_exclude (childPath full n) n ex = false) :
    entryName rel n ∈ copy_content_walk full rel ex ts := by
  induction ts with
  | nil => exact absurd hmem (List.not_mem_nil _)
  | cons t ts ih =>
    rcases List.mem_cons.mp hmem with h | h
    · subst h
      simp [copy_content_walk, hex]
    · cases t with
      | file m => simp [copy_content_walk, ih h]
      | dir m cs => simp [copy_content_walk, ih h]

/-- A copy produced inside a non-excluded subdirectory appears among the
walk's copies of the surrounding forest. -/
theorem mem_walk_of_dir {ex : List (List Char)} {full rel n p : List Char}
    {cs ts : List FsTree} (hmem : FsTree.dir n cs ∈ ts)
    (hex : should_exclude (childPath full n) n ex = false)
    (hp : p ∈ copy_content_walk (childPath full n) (entryName rel n) ex cs) :
    p ∈ copy_content_walk full rel ex ts := by
  induction ts with
  | nil => exact absurd hmem (List.not_mem_nil _)
  | cons t ts ih =>
    rcases List.mem_cons.mp hmem with h | h
    · subst h
      simp [copy_content_walk, hex]
      exact Or.inl hp
    · cases t with
      | file m => simp [copy_content_walk, ih h]
      | dir m cs2 => simp [copy_content_walk, ih h]

/-- Every path produced by the walk comes from a file whose whole ancestor
chain passed the exclusion test. -/
theorem walk_mem_copied :
    ∀ (full rel : List Char) (ex : List (List Char)) (ts : List FsTree),
      ∀ p, p ∈ copy_content_walk full rel ex ts → CopiedFile ex full rel ts p := by
  intro full rel ex ts
  induction full, rel, ex, ts using copy_content_walk.induct with
  | case1 full rel ex =>
    intro p hp
    simp only [copy_content_walk] at hp
    exact absurd hp (List.not_mem_nil _)
  | case2 full rel ex n ts ih =>
    intro p hp
    simp only [copy_content_walk] at hp
    rcases List.mem_append.mp hp with h | h
    · by_cases hx : should_exclude (childPath full n) n ex = true
      · rw [if_pos hx] at h
        exact absurd h (List.not_mem_nil _)
      · rw [if_neg hx] at h
        rcases List.mem_singleton.mp h with rfl
        exact .here full rel _ n (List.mem_cons_self _ _) (eq_false_of_ne_true hx)
    · exact (ih p h).cons
  | case3 full rel ex n cs ts ih1 ih2 =>
    intro p hp
    simp only [copy_content_walk] at hp
    rcases List.mem_append.mp hp with h | h
    · by_cases hx : should_exclude (childPath full n) n ex = true
      · rw [if_pos hx] at h
        exact absurd h (List.not_mem_nil _)
      · rw [if_neg hx] at h
        exact .there full rel _ n cs p (List.mem_cons_self _ _)
          (eq_false_of_ne_true hx) (ih1 p h)
    · exact (ih2 p h).cons

/-- C6 (amended): a path is copied by the recursive content copy exactly
when it names a file all of whose enclosing directories, and the file
itself, pass the full-path exclusion test: a pattern excludes an entry when
it occurs as a substring of the entry's full path string — not merely of its
base name — or equals the base name. -/
theorem c6_copy_selection_amended (ex : List (List Char))
    (full rel p : List Char) (ts : List FsTree) :
    p ∈ copy_content_walk full rel ex ts ↔ CopiedFile ex full rel ts p := by
  constructor
  · exact walk_mem_copied full rel ex ts p
  · intro hc
    induction hc with
    | here full rel ts n hmem hex => exact mem_walk_of_file hmem hex
    | there full rel ts n cs p hmem hex hsub ih => exact mem_walk_of_dir hmem hex ih

/-- C6 (counterexample): with the exclude pattern `x/y`, the directory `x`
and the file `y` inside it match no pattern by name — the claim says both
are copied — yet the file is skipped, because the pattern is matched against
the full path `src/x/y`, which contains `x/y`. -/
theorem c6_counterexample :
    (isSub ("x/y".toList) ("x".toList) = false ∧ ("x".toList) ≠ ("x/y".toList) ∧
     isSub ("x/y".toList) ("y".toList) = false ∧ ("y".toList) ≠ ("x/y".toList)) ∧
    copy_content_walk ("src".toList) [] [("x/y".toList)]
      [FsTree.dir ("x".toList) [FsTree.file ("y".toList)]] = [] := by
  constructor
  · decide
  · simp [copy_content_walk, should_exclude, childPath, entryName, isSub,
      List.isPrefixOf]

end Aemcli
